import Mathlib

/-!
Verification development for the "aldo" app-icon gallery.

The TypeScript source is shallowly embedded below:
  pure computations become Lean functions over Nat / Int / Rat / String;
  the DOM and network reads become explicit parameters (the fetched gviz
  table, the pixel buffer of a decoded image, the computed style string and
  bounding-box of an element, the per-batch lookup results);
  JS doubles are modelled as exact rationals, JS NaN as Option.none.

Sources embedded: src/services/appService.ts (catalog loader, search,
iTunes batching, dominant color) and the main App component (search
history, hex to HSL conversion, hue distance, closest palette color,
border-radius ratio, rounded-rect clipping, combined canvas grid).
-/

/-! ## Small JS-semantics helpers -/

/-- Substring test on character lists: does the first list start with the
second one?  Used to model JS String.prototype.includes. -/
def startsWithList : List Char → List Char → Bool
  | _, [] => true
  | [], _ :: _ => false
  | a :: as, b :: bs => a == b && startsWithList as bs

/-- JS String.prototype.includes, on character lists: the pattern occurs as a
contiguous substring of the haystack. -/
def containsSubList : List Char → List Char → Bool
  | [], pat => pat.isEmpty
  | a :: t, pat => startsWithList (a :: t) pat || containsSubList t pat

/-- JS String.prototype.includes. -/
def strIncludes (hay pat : String) : Bool := containsSubList hay.data pat.data

/-- JS String.prototype.trim on a character list: leading and trailing
whitespace removed. -/
def trimChars (cs : List Char) : List Char :=
  ((cs.dropWhile (fun c => c.isWhitespace)).reverse.dropWhile (fun c => c.isWhitespace)).reverse

/-- JS String.prototype.trim. -/
def jsTrim (s : String) : String := ⟨trimChars s.data⟩

/-- JS String.prototype.toLowerCase (the catalog strings are ASCII). -/
def jsToLower (s : String) : String := ⟨s.data.map Char.toLower⟩

/-- Does the string end with the given character?  Models
String.prototype.endsWith with a one-character argument. -/
def lastCharIs (s : String) (c : Char) : Bool := s.data.getLast? == some c

/-- Numeric value of a list of decimal digit characters (most significant
first), as produced by JS parseInt / parseFloat digit runs. -/
def digitsVal (ds : List Char) : Nat :=
  ds.foldl (fun acc c => 10 * acc + (c.toNat - '0'.toNat)) 0

/-- JS parseInt(s, 10): skip leading whitespace, optional sign, then the
maximal run of decimal digits; NaN (modelled as none) when that run is
empty. -/
def parseIntJS (s : String) : Option ℤ :=
  let cs := s.data.dropWhile (fun c => c.isWhitespace)
  let sgn : ℤ := match cs with | '-' :: _ => -1 | _ => 1
  let cs2 := match cs with | '-' :: t => t | '+' :: t => t | t => t
  let digits := cs2.takeWhile (fun c => c.isDigit)
  if digits.isEmpty then none else some (sgn * (digitsVal digits : ℤ))

/-- JS parseFloat on the decimal forms produced by computed CSS styles:
skip leading whitespace, optional sign, integer digits, optional fraction
digits; trailing junk (px, %) is ignored; NaN (none) when no digit was
read.  Exponent forms do not occur in computed border-radius values and are
not modelled. -/
def parseFloatJS (s : String) : Option ℚ :=
  let cs := s.data.dropWhile (fun c => c.isWhitespace)
  let sgn : ℚ := match cs with | '-' :: _ => -1 | _ => 1
  let cs2 := match cs with | '-' :: t => t | '+' :: t => t | t => t
  let intPart := cs2.takeWhile (fun c => c.isDigit)
  let rest := cs2.dropWhile (fun c => c.isDigit)
  let fracPart := match rest with | '.' :: t => t.takeWhile (fun c => c.isDigit) | _ => []
  if intPart.isEmpty && fracPart.isEmpty then none
  else some (sgn * ((digitsVal intPart : ℚ) + (digitsVal fracPart : ℚ) / (10 ^ fracPart.length)))

/-- Truncation toward zero of a rational, as JS arithmetic truncates the
real quotient inside the % operator. -/
def ratTrunc (q : ℚ) : ℤ := q.num.tdiv q.den

/-- JS remainder operator % on (finite) doubles, modelled exactly on
rationals: x - y * trunc(x / y). -/
def jsMod (x y : ℚ) : ℚ := x - y * (ratTrunc (x / y) : ℚ)

/-! ## Catalog loader (AppService.loadAppsFromSheet) -/

/-- A gviz cell value.  gviz JSON cells carry strings or (finite) numbers;
numeric cells of this sheet are integers. -/
inductive GVal where
  | num (n : ℤ)
  | str (s : String)
deriving DecidableEq

/-- JS String(v) for a gviz cell value. -/
def jsStringOf : GVal → String
  | .num n => toString n
  | .str s => s

/-- JS truthiness of a gviz cell value. -/
def gvalTruthy : GVal → Bool
  | .num n => !(n == 0)
  | .str s => !(s == "")

/-- The AppData record of src/lib/types: id is a JS number (none models
NaN), the other fields follow the TS interface.  Cells of non-string type
in string-typed columns are outside the TS interface and are modelled as
absent. -/
structure AppData where
  id : Option ℤ
  name : String
  app_store_id : String
  category : Option String
  created_at : Option String
  updated_at : Option String
deriving DecidableEq

/-- The label to column-index map of loadAppsFromSheet: labels are trimmed
and lowercased, and a repeated label keeps the last column (JS object
assignment overwrites).  Lookup of a label returns that column index. -/
def labelIndexOf (cols : List (Option String)) (label : String) : Option Nat :=
  (cols.foldl
    (fun (st : Nat × Option Nat) lbl =>
      match lbl with
      | some l0 => if jsToLower (jsTrim l0) == label then (st.1 + 1, some st.1) else (st.1 + 1, st.2)
      | none => (st.1 + 1, st.2))
    (0, none)).2

/-- The getVal helper of loadAppsFromSheet: a missing label, an
out-of-range or null cell, or a null cell value all yield none (a row cell
is modelled as Option GVal, merging the null cell and the null value
cases). -/
def getVal (cols : List (Option String)) (row : List (Option GVal)) (label : String) :
    Option GVal :=
  match labelIndexOf cols label with
  | none => none
  | some i => (row[i]?).join

/-- The row-to-record mapping of loadAppsFromSheet: id is kept when the
cell is a number, otherwise parsed with parseInt from String(idRaw or '0');
name falls back to the empty string; app_store_id is String-coerced;
category and the timestamps are optional (timestamps are String-coerced
when truthy). -/
def rowToApp (cols : List (Option String)) (row : List (Option GVal)) : AppData :=
  let idRaw := getVal cols row "id"
  let name := match getVal cols row "name" with
    | some (.str s) => s
    | _ => ""
  let appStoreIdRaw := getVal cols row "app_store_id"
  let category := match getVal cols row "category" with
    | some (.str s) => some s
    | _ => none
  let createdAt := match getVal cols row "created_at" with
    | some v => if gvalTruthy v then some (jsStringOf v) else none
    | none => none
  let updatedAt := match getVal cols row "updated_at" with
    | some v => if gvalTruthy v then some (jsStringOf v) else none
    | none => none
  let id : Option ℤ := match idRaw with
    | some (.num n) => some n
    | some (.str s) => if s == "" then some 0 else parseIntJS s
    | none => some 0
  let app_store_id := match appStoreIdRaw with
    | some v => jsStringOf v
    | none => ""
  ⟨id, name, app_store_id, category, createdAt, updatedAt⟩

/-- The validity filter of loadAppsFromSheet:
Number.isFinite(a.id) and truthy a.name and truthy a.app_store_id. -/
def validB (a : AppData) : Bool :=
  a.id.isSome && !(a.name == "") && !(a.app_store_id == "")

/-- AppService.loadAppsFromSheet on an already-fetched gviz table: null
columns and rows are discarded, every remaining row is mapped to a record,
and invalid records are silently filtered out.  Column entries are
Option (Option String): the outer Option models a null column object, the
inner one a null label. -/
def loadAppsFromSheet (cols0 : List (Option (Option String)))
    (rows0 : List (Option (List (Option GVal)))) : List AppData :=
  let cols := cols0.reduceOption
  let rows := rows0.reduceOption
  (rows.map (rowToApp cols)).filter validB

/-! ## Search (AppService.searchAppsByCategory) -/

/-- The category test of searchAppsByCategory and getAppsByCategory:
a.category is truthy and contained in the requested category list. -/
def categoryOkB (categories : List String) (a : AppData) : Bool :=
  match a.category with
  | some c => !(c == "") && categories.contains c
  | none => false

/-- AppService.searchAppsByCategory on a loaded catalog: lowercase the
trimmed term, keep records whose lowercased name contains it, restrict to
the requested categories unless 'all' is among them, and sort by name.
The locale-dependent comparison a.name.localeCompare(b.name) is the
parameter cmp. -/
def searchAppsByCategory (cmp : String → String → Bool) (apps : List AppData)
    (searchTerm : String) (categories : List String) : List AppData :=
  let term := jsToLower (jsTrim searchTerm)
  let byName := apps.filter (fun a => strIncludes (jsToLower a.name) term)
  let result := if categories.contains "all" then byName
                else byName.filter (categoryOkB categories)
  result.mergeSort (fun a b => cmp a.name b.name)

/-! ## Metadata enrichment (AppService.getAppDetails) and the catalog join -/

/-- The store-lookup record fields this development needs (the remaining
fields of AppWithDetails are carried unchanged by the code and are not
modelled). -/
structure StoreRec where
  trackId : ℤ
  trackName : String
  artworkUrl100 : String
deriving DecidableEq

/-- The batching loop of getAppDetails: contiguous slices of at most 10
identifiers, in input order. -/
def batchesOf (ids : List String) : List (List String) :=
  match ids with
  | [] => []
  | x :: xs => ((x :: xs).take 10) :: batchesOf ((x :: xs).drop 10)
termination_by ids.length
decreasing_by
  simp only [List.length_drop, List.length_cons]
  omega

/-- AppService.getAppDetails with the remote lookup as a parameter: one
request per batch, and the per-batch result lists (result.results or [],
so none models a payload without a results field) flattened in batch
order. -/
def getAppDetails (fetchResults : List String → Option (List StoreRec))
    (appStoreIds : List String) : List StoreRec :=
  ((batchesOf appStoreIds).map (fun batch => (fetchResults batch).getD [])).flatten

/-- The name-override join of loadAppsByCategory and searchApps: the first
catalog record whose app_store_id equals String(trackId) supplies the
display name, otherwise the store name is kept. -/
def joinTrackName (catalogApps : List AppData) (app : StoreRec) : String :=
  match catalogApps.find? (fun dbApp => dbApp.app_store_id == toString app.trackId) with
  | some dbApp => dbApp.name
  | none => app.trackName

/-- The mapping step that applies the name override to every fetched store
record. -/
def mapCatalogNames (catalogApps : List AppData) (details : List StoreRec) : List StoreRec :=
  details.map (fun app => { app with trackName := joinTrackName catalogApps app })

/-! ## Search history (searchApps in the App component) -/

/-- One history insertion of searchApps: remove any occurrence of the
term, put it in front, keep the first 5. -/
def insertSearchTerm (searchValue : String) (prev : List String) : List String :=
  (searchValue :: prev.filter (fun t => !(t == searchValue))).take 5

/-- The history produced by a sequence of insertions starting from the
initial empty history. -/
def historyAfter (terms : List String) : List String :=
  terms.foldl (fun acc t => insertSearchTerm t acc) []

/-! ## Dominant color (AppService.getDominantColor) -/

/-- One RGBA pixel of the canvas image data (Uint8ClampedArray bytes). -/
structure Pixel where
  r : Fin 256
  g : Fin 256
  b : Fin 256
  a : Fin 256
deriving DecidableEq

/-- JS Number.prototype.toString(16) for a byte value (lowercase hex
digits, no padding). -/
def natToHex16 (n : Nat) : String := (Nat.toDigits 16 n).asString

/-- The per-channel hex conversion of getDominantColor: one-digit values
are left-padded with '0'. -/
def hexByte (n : Nat) : String :=
  let s := natToHex16 n
  if s.length == 1 then "0" ++ s else s

/-- The color key '#rrggbb' built for a pixel; the alpha byte is ignored,
exactly as the source reads only data[i], data[i+1], data[i+2]. -/
def pixelHex (p : Pixel) : String :=
  "#" ++ String.join ([p.r.val, p.g.val, p.b.val].map hexByte)

/-- colorCounts[hex] = (colorCounts[hex] or 0) + 1 on an insertion-ordered
association list: an existing key is incremented in place (keeping its
position, as JS object updates do), a new key is appended. -/
def bump : List (String × Nat) → String → List (String × Nat)
  | [], c => [(c, 1)]
  | (k, v) :: t, c => if k == c then (k, v + 1) :: t else (k, v) :: bump t c

/-- The frequency map of getDominantColor, with JS object insertion order
made explicit ('#'-prefixed keys are never array indices, so
Object.entries returns pure insertion order). -/
def buildHist (px : List Pixel) : List (String × Nat) :=
  px.foldl (fun hst p => bump hst (pixelHex p)) []

/-- The final scan of getDominantColor: maxCount starts at 0, the dominant
color starts at the fallback '#666666', and an entry replaces the current
best only when its count is strictly greater. -/
def selectMax (entries : List (String × Nat)) : String :=
  (entries.foldl (fun acc e => if e.2 > acc.2 then e else acc) ("#666666", 0)).1

/-- AppService.getDominantColor on the pixel buffer of the decoded image
(the network and canvas steps deliver px; decode failure rejects before
this computation runs). -/
def getDominantColor (px : List Pixel) : String :=
  selectMax (buildHist px)

/-- Modelled from the claim wording, for comparison with getDominantColor:
order-preserving deduplication, keeping the first occurrence of each
element. -/
def firstDedup : List String → List String
  | [] => []
  | c :: t => c :: firstDedup (t.filter (fun d => !(d == c)))
termination_by l => l.length
decreasing_by
  simp only [List.length_cons, Nat.lt_succ_iff]
  apply List.length_filter_le

/-- The distinct pixel colors in first-seen order. -/
def firstSeenColors (px : List Pixel) : List String :=
  firstDedup (px.map pixelHex)

/-- Exact-match frequency of a color string over a pixel buffer. -/
def countColor (px : List Pixel) (c : String) : Nat :=
  (px.filter (fun p => pixelHex p == c)).length

/-- The maximum exact-match frequency over the sampled pixels. -/
def maxFreq (px : List Pixel) : Nat :=
  ((firstSeenColors px).map (countColor px)).foldr max 0

/-- Modelled from the claim wording, for comparison with getDominantColor:
the first-seen color attaining the maximum frequency, with the neutral
gray fallback when no pixel was sampled. -/
def dominantColorSpec (px : List Pixel) : String :=
  (((firstSeenColors px).find? (fun c => countColor px c == maxFreq px)).getD "#666666")

/-- Shape check for '#rrggbb' strings: a '#' followed by exactly six
lowercase hex digits. -/
def isHexColor (s : String) : Bool :=
  match s.data with
  | '#' :: t => t.length == 6 && t.all (fun ch => ch.isDigit || ('a' ≤ ch && ch ≤ 'f'))
  | _ => false

/-- Occurrence count of a string in a list of strings (frequency of a
color key among the per-pixel keys). -/
def cntL (l : List String) (c : String) : Nat :=
  (l.filter (fun d => d == c)).length

/-! ## Color classifier (hexToHsl, hueDistance, getClosestColorId) -/

/-- Value of one hex digit, both cases, as matched by the /i regex of
hexToHsl. -/
def hexDigitVal (c : Char) : Option Nat :=
  if c.isDigit then
    some (c.toNat - '0'.toNat)
  else if 'a' ≤ c && c ≤ 'f' then
    some (10 + (c.toNat - 'a'.toNat))
  else if 'A' ≤ c && c ≤ 'F' then
    some (10 + (c.toNat - 'A'.toNat))
  else
    none

/-- Value of a two-digit hex pair. -/
def hexPairVal (c1 c2 : Char) : Option Nat :=
  match hexDigitVal c1, hexDigitVal c2 with
  | some a, some b => some (16 * a + b)
  | _, _ => none

/-- The regex match of hexToHsl: an optional '#', then exactly six hex
digits, giving the three channel bytes. -/
def parseHex6 (s : String) : Option (Nat × Nat × Nat) :=
  let cs := match s.data with
    | '#' :: rest => rest
    | other => other
  match cs with
  | [a, b, c, d, e, f] =>
    match hexPairVal a b, hexPairVal c d, hexPairVal e f with
    | some r, some g, some bl => some (r, g, bl)
    | _, _, _ => none
  | _ => none

/-- hexToHsl of the App component, with JS doubles modelled as exact
rationals: none for an unparseable string, otherwise (h, s, l) with h = 0
and s = 0 on the achromatic diagonal, and the standard RGB-to-HSL formulas
(h already scaled by 60) otherwise.  The JS switch on max matches the r
case first, then g, then b. -/
def hexToHsl (hex : String) : Option (ℚ × ℚ × ℚ) :=
  match parseHex6 hex with
  | none => none
  | some (r0, g0, b0) =>
    let r : ℚ := (r0 : ℚ) / 255
    let g : ℚ := (g0 : ℚ) / 255
    let b : ℚ := (b0 : ℚ) / 255
    let mx := max r (max g b)
    let mn := min r (min g b)
    let l := (mx + mn) / 2
    let d := mx - mn
    if d = 0 then some (0, 0, l)
    else
      let s := if 1/2 < l then d / (2 - mx - mn) else d / (mx + mn)
      let h := if mx = r then (g - b) / d + (if g < b then 6 else 0)
               else if mx = g then (b - r) / d + 2
               else (r - g) / d + 4
      some (h * 60, s, l)

/-- hueDistance of the App component: d = |a - b| % 360, folded onto
[0, 180] by taking 360 - d when d exceeds 180. -/
def hueDistance (a b : ℚ) : ℚ :=
  let d := jsMod |a - b| 360
  if 180 < d then 360 - d else d

/-- One entry of the COLORS palette constant. -/
structure ColorChoice where
  id : String
  name : String
  value : String
deriving DecidableEq

/-- The COLORS palette constant, in declaration order. -/
def COLORS : List ColorChoice :=
  [⟨"all", "All Colors", "all"⟩,
   ⟨"red", "Red", "#ff0000"⟩,
   ⟨"orange", "Orange", "#ffa500"⟩,
   ⟨"yellow", "Yellow", "#ffff00"⟩,
   ⟨"green", "Green", "#00ff00"⟩,
   ⟨"blue", "Blue", "#0000ff"⟩,
   ⟨"purple", "Purple", "#800080"⟩,
   ⟨"pink", "Pink", "#ff1493"⟩,
   ⟨"black", "Black", "#000000"⟩,
   ⟨"white", "White", "#ffffff"⟩]

/-- The hue of a palette value, hexToHsl(c.value)!.h: the non-null
assertion holds because every non-sentinel palette value parses. -/
def hslHueOf (v : String) : ℚ :=
  match hexToHsl v with
  | some (h, _, _) => h
  | none => 0

/-- The paletteWithHues list of getClosestColorId: the palette without the
'all' sentinel and the two neutrals, each paired with its hue. -/
def paletteWithHues : List (String × ℚ) :=
  (COLORS.filter (fun c => !(c.id == "all") && !(c.id == "white") && !(c.id == "black"))).map
    (fun c => (c.id, hslHueOf c.value))

/-- Head of a stable ascending sort by the second component: the first
element attaining the minimum.  Models .sort((a, b) => a.dist - b.dist)[0]
(ES2019 sort is stable). -/
def firstMinBy (l : List (String × ℚ)) : Option (String × ℚ) :=
  l.foldl
    (fun acc p =>
      match acc with
      | none => some p
      | some q => if p.2 < q.2 then some p else acc)
    none

/-- getClosestColorId of the App component: black for an unparseable
color; the neutral gate (s < 0.12) goes to white or black by lightness;
otherwise the nearest palette hue by circular distance, ties to the
earlier palette entry; closest?.id or 'black' guards the (never-empty)
list lookup and a falsy id. -/
def getClosestColorId (color : String) : String :=
  match hexToHsl color with
  | none => "black"
  | some (h, s, l) =>
    if s < 12/100 then (if 8/10 < l then "white" else "black")
    else
      match firstMinBy (paletteWithHues.map (fun p => (p.1, hueDistance h p.2))) with
      | none => "black"
      | some c => if c.1 = "" then "black" else c.1

/-! ## Image export engine (rounded-rect clipping and combined grid) -/

/-- The first token of a computed border-radius: part before any '/',
trimmed, first space-separated word.  Models
br.split('/')[0].trim().split(' ')[0]. -/
def radiusToken (br : String) : String :=
  ⟨(trimChars (br.data.takeWhile (fun c => !(c == '/')))).takeWhile (fun c => !(c == ' '))⟩

/-- getBorderRadiusRatio of the App component, with the DOM reads as
parameters: br is the computed borderTopLeftRadius (or borderRadius)
string and w, h the bounding-box dimensions.  Percentages are normalized
by 100, pixel values by the smaller box edge (or 1 when that is 0), and
the result is clamped to [0, 1]; an unparseable token contributes 0. -/
def borderRadiusRatioOf (br : String) (w h : ℚ) : ℚ :=
  let tok := radiusToken br
  let base := if min w h == 0 then 1 else min w h
  if lastCharIs tok '%' then
    let pct := (parseFloatJS tok).getD 0
    max 0 (min 1 (pct / 100))
  else
    let px := (parseFloatJS tok).getD 0
    max 0 (min 1 (px / base))

/-- The effective corner radius of addRoundedRectPath:
r = max(0, min(radius, min(width, height) / 2)). -/
def effectiveRadius (w h radius : ℚ) : ℚ :=
  max 0 (min radius (min w h / 2))

/-- The clip radius drawn by both export paths: the element ratio times
the smaller drawn edge, clamped by addRoundedRectPath
(copySingleImageWithRadius uses the natural canvas size,
generateCombinedCanvas the scaled cell size). -/
def clipRadius (rr w h : ℚ) : ℚ :=
  effectiveRadius w h (rr * min w h)

/-- Math.ceil(Math.sqrt(n)) of generateCombinedCanvas, on naturals. -/
def ceilSqrtNat (n : Nat) : Nat :=
  if Nat.sqrt n * Nat.sqrt n == n then Nat.sqrt n else Nat.sqrt n + 1

/-- The column count of the combined grid. -/
def gridCols (n : Nat) : Nat := ceilSqrtNat n

/-- The row count of the combined grid, Math.ceil(n / cols). -/
def gridRows (n : Nat) : Nat := (n + (gridCols n - 1)) / gridCols n

/-- The combined canvas width, cols * cell + (cols + 1) * gap. -/
def canvasWidth (n cellSize gap : Nat) : Nat :=
  gridCols n * cellSize + (gridCols n + 1) * gap

/-- The combined canvas height, rows * cell + (rows + 1) * gap. -/
def canvasHeight (n cellSize gap : Nat) : Nat :=
  gridRows n * cellSize + (gridRows n + 1) * gap

/-- The column of the i-th image, i % cols. -/
def tileCol (i n : Nat) : Nat := i % gridCols n

/-- The row of the i-th image, Math.floor(i / cols). -/
def tileRow (i n : Nat) : Nat := i / gridCols n

/-- The x position of the i-th tile, gap + col * (cell + gap). -/
def tileX (i n cellSize gap : Nat) : Nat := gap + tileCol i n * (cellSize + gap)

/-- The y position of the i-th tile, gap + row * (cell + gap). -/
def tileY (i n cellSize gap : Nat) : Nat := gap + tileRow i n * (cellSize + gap)

/-! ## Concrete payloads used by counterexamples and witnesses -/

/-- Catalog columns of a minimal gviz payload. -/
def c1CexCols : List (Option (Option String)) :=
  [some (some "id"), some (some "name"), some (some "app_store_id")]

/-- One catalog row whose id cell is the number 0. -/
def c1CexRows : List (Option (List (Option GVal))) :=
  [some [some (.num 0), some (.str "A"), some (.str "123")]]

/-- The record produced from that row. -/
def c1CexApp : AppData :=
  rowToApp [some "id", some "name", some "app_store_id"]
    [some (.num 0), some (.str "A"), some (.str "123")]

/-- A one-record catalog whose record has no category. -/
def c2CexApps : List AppData :=
  [⟨some 1, "Foo", "1", none, none, none⟩]

/-- A plain string comparison standing in for the ambient locale collation
in concrete evaluations. -/
def strLeB (a b : String) : Bool := decide (a ≤ b)

/-- A one-record catalog for the join examples. -/
def c7Catalog : List AppData :=
  [⟨some 1, "Zeta", "111", some "app", none, none⟩]

/-! ## Theorems -/

theorem insertSearchTerm_head (v : String) (prev : List String) :
    (insertSearchTerm v prev).head? = some v := rfl

theorem insertSearchTerm_not_mem_tail (v : String) (prev : List String) :
    v ∉ (insertSearchTerm v prev).drop 1 := by
  intro hv
  simp only [insertSearchTerm] at hv
  have h1 : (insertSearchTerm v prev).drop 1 = (prev.filter (fun t => !(t == v))).take 4 := rfl
  rw [insertSearchTerm] at h1
  rw [h1] at hv
  have h2 : v ∈ prev.filter (fun t => !(t == v)) :=
    (List.take_sublist 4 _).mem hv
  have h3 := (List.mem_filter.mp h2).2
  simp at h3

theorem insertSearchTerm_length (v : String) (prev : List String) :
    (insertSearchTerm v prev).length ≤ 5 := by
  simp only [insertSearchTerm, List.length_take]
  exact min_le_left _ _

theorem insertSearchTerm_nodup (v : String) (prev : List String) (h : prev.Nodup) :
    (insertSearchTerm v prev).Nodup := by
  apply (List.take_sublist 5 _).nodup
  refine List.nodup_cons.mpr ⟨?_, h.filter _⟩
  intro hv
  have := (List.mem_filter.mp hv).2
  simp at this

theorem historyAfter_nodup_aux (terms : List String) :
    ∀ acc : List String, acc.Nodup →
      (terms.foldl (fun a t => insertSearchTerm t a) acc).Nodup := by
  induction terms with
  | nil => intro acc h; simpa using h
  | cons t ts ih =>
    intro acc h
    exact ih _ (insertSearchTerm_nodup t acc h)

theorem historyAfter_length_aux (terms : List String) :
    ∀ acc : List String, acc.length ≤ 5 →
      (terms.foldl (fun a t => insertSearchTerm t a) acc).length ≤ 5 := by
  induction terms with
  | nil => intro acc h; simpa using h
  | cons t ts ih =>
    intro acc _
    exact ih _ (insertSearchTerm_length t acc)

/-- C6: starting from the empty history, any sequence of insertions leaves
at most 5 entries and no duplicate term, and inserting a term removes any
existing occurrence and places the term at the front. -/
theorem aldo_C6 (terms : List String) (v : String) (prev : List String) :
    (historyAfter terms).length ≤ 5 ∧ (historyAfter terms).Nodup ∧
    (insertSearchTerm v prev).head? = some v ∧
    v ∉ (insertSearchTerm v prev).drop 1 ∧
    (insertSearchTerm v prev).length ≤ 5 :=
  ⟨historyAfter_length_aux terms [] (by simp),
   historyAfter_nodup_aux terms [] (by simp),
   insertSearchTerm_head v prev,
   insertSearchTerm_not_mem_tail v prev,
   insertSearchTerm_length v prev⟩

theorem ratTrunc_eq_zero {q : ℚ} (h0 : 0 ≤ q) (h1 : q < 1) : ratTrunc q = 0 := by
  have hnum : 0 ≤ q.num := Rat.num_nonneg.mpr h0
  have hlt : q.num < (q.den : ℤ) := by
    have := Rat.lt_one_iff_num_lt_denom.mp h1
    exact_mod_cast this
  exact Int.tdiv_eq_zero_of_lt hnum hlt

theorem jsMod_eq_self {x : ℚ} (h0 : 0 ≤ x) (h : x < 360) : jsMod x 360 = x := by
  have h1 : ratTrunc (x / 360) = 0 := by
    apply ratTrunc_eq_zero
    · positivity
    · rw [div_lt_one (by norm_num)]; exact h
  simp [jsMod, h1]

theorem hueDistance_self (c : ℚ) : hueDistance c c = 0 := by
  have h0 : |c - c| = 0 := by simp
  simp only [hueDistance, h0]
  rw [jsMod_eq_self le_rfl (by norm_num)]
  norm_num

theorem hueDistance_comm (a b : ℚ) : hueDistance a b = hueDistance b a := by
  simp only [hueDistance]
  rw [abs_sub_comm]

theorem hueDistance_min {a b : ℚ} (ha0 : 0 ≤ a) (ha : a < 360) (hb0 : 0 ≤ b) (hb : b < 360) :
    hueDistance a b = min |a - b| (360 - |a - b|) := by
  have habs0 : 0 ≤ |a - b| := abs_nonneg _
  have habs : |a - b| < 360 := by
    rw [abs_sub_lt_iff]
    constructor <;> linarith
  simp only [hueDistance]
  rw [jsMod_eq_self habs0 habs]
  by_cases h : 180 < |a - b|
  · rw [if_pos h, min_eq_right (by linarith)]
  · rw [if_neg h, min_eq_left (by push_neg at h; linarith)]

/-- C9: for hues in [0, 360) the hue distance is symmetric, vanishes on
the diagonal, equals the circular distance min(|a-b|, 360-|a-b|), and in
particular hueDistance 10 350 = 20. -/
theorem aldo_C9 (a b c : ℚ) (ha0 : 0 ≤ a) (ha : a < 360) (hb0 : 0 ≤ b) (hb : b < 360) :
    hueDistance a b = hueDistance b a ∧
    hueDistance c c = 0 ∧
    hueDistance a b = min |a - b| (360 - |a - b|) ∧
    hueDistance 10 350 = 20 := by
  refine ⟨hueDistance_comm a b, hueDistance_self c, hueDistance_min ha0 ha hb0 hb, ?_⟩
  have h1 : |(10 : ℚ) - 350| = 340 := by norm_num [abs_of_nonpos]
  simp only [hueDistance, h1]
  rw [jsMod_eq_self (by norm_num) (by norm_num)]
  norm_num

/-- Witness for C9 at a = 10, b = 350, c = 77. -/
theorem aldo_C9_witness :
    hueDistance 10 350 = hueDistance 350 10 ∧
    hueDistance 77 77 = 0 ∧
    hueDistance 10 350 = min |(10 : ℚ) - 350| (360 - |(10 : ℚ) - 350|) ∧
    hueDistance 10 350 = 20 :=
  aldo_C9 10 350 77 (by norm_num) (by norm_num) (by norm_num) (by norm_num)

theorem borderRadiusRatioOf_nonneg (br : String) (w h : ℚ) :
    0 ≤ borderRadiusRatioOf br w h := by
  simp only [borderRadiusRatioOf]
  split <;> exact le_max_left _ _

theorem borderRadiusRatioOf_le_one (br : String) (w h : ℚ) :
    borderRadiusRatioOf br w h ≤ 1 := by
  simp only [borderRadiusRatioOf]
  split <;> exact max_le (by norm_num) (min_le_left _ _)

theorem borderRadiusRatioOf_unparseable (br : String) (w h : ℚ)
    (hnone : parseFloatJS (radiusToken br) = none) :
    borderRadiusRatioOf br w h = 0 := by
  simp only [borderRadiusRatioOf, hnone, Option.getD_none]
  split <;> norm_num

theorem effectiveRadius_nonneg (w h radius : ℚ) : 0 ≤ effectiveRadius w h radius :=
  le_max_left _ _

theorem effectiveRadius_le (w h radius : ℚ) (hw : 0 ≤ w) (hh : 0 ≤ h) :
    effectiveRadius w h radius ≤ min w h / 2 := by
  unfold effectiveRadius
  exact max_le (by positivity) (min_le_right _ _)

/-- C10: the border-radius ratio read from a computed style is always in
[0, 1] (0 when the token does not parse), and the effective clip radius of
addRoundedRectPath, hence the clip radius used by both the single and the
combined export, is never negative and never exceeds half of the shorter
edge. -/
theorem aldo_C10 (br : String) (w h radius rr : ℚ) (hw : 0 ≤ w) (hh : 0 ≤ h) :
    0 ≤ borderRadiusRatioOf br w h ∧ borderRadiusRatioOf br w h ≤ 1 ∧
    (parseFloatJS (radiusToken br) = none → borderRadiusRatioOf br w h = 0) ∧
    0 ≤ effectiveRadius w h radius ∧ effectiveRadius w h radius ≤ min w h / 2 ∧
    0 ≤ clipRadius rr w h ∧ clipRadius rr w h ≤ min w h / 2 :=
  ⟨borderRadiusRatioOf_nonneg br w h,
   borderRadiusRatioOf_le_one br w h,
   fun hnone => borderRadiusRatioOf_unparseable br w h hnone,
   effectiveRadius_nonneg w h radius,
   effectiveRadius_le w h radius hw hh,
   effectiveRadius_nonneg w h _,
   effectiveRadius_le w h _ hw hh⟩

/-- Witness for C10 at a percentage style, an oversized pixel radius, and
an unparseable style. -/
theorem aldo_C10_witness :
    0 ≤ borderRadiusRatioOf "50%" 100 100 ∧ borderRadiusRatioOf "50%" 100 100 ≤ 1 ∧
    0 ≤ effectiveRadius 100 100 999 ∧ effectiveRadius 100 100 999 ≤ min (100 : ℚ) 100 / 2 ∧
    0 ≤ clipRadius (1/2) 100 100 ∧ clipRadius (1/2) 100 100 ≤ min (100 : ℚ) 100 / 2 ∧
    borderRadiusRatioOf "garbage" 100 100 = 0 := by
  have t1 := aldo_C10 "50%" 100 100 999 (1/2) (by norm_num) (by norm_num)
  have t2 := aldo_C10 "garbage" 100 100 999 (1/2) (by norm_num) (by norm_num)
  exact ⟨t1.1, t1.2.1, t1.2.2.2.1, t1.2.2.2.2.1, t1.2.2.2.2.2.1, t1.2.2.2.2.2.2,
    t2.2.2.1 (by decide)⟩

theorem gridCols_sq_ge (n : Nat) : n ≤ gridCols n * gridCols n := by
  simp only [gridCols, ceilSqrtNat]
  by_cases hsq : Nat.sqrt n * Nat.sqrt n = n
  · simp only [hsq, beq_self_eq_true, if_true]
    exact Nat.le_refl n
  · rw [if_neg (by simpa using hsq)]
    have h := Nat.lt_succ_sqrt n
    rw [Nat.succ_eq_add_one] at h
    omega

theorem gridCols_pred_sq_lt (n : Nat) (hn : 1 ≤ n) :
    (gridCols n - 1) * (gridCols n - 1) < n := by
  simp only [gridCols, ceilSqrtNat]
  have hs := Nat.sqrt_le n
  by_cases hsq : Nat.sqrt n * Nat.sqrt n = n
  · rw [if_pos (by simpa using hsq)]
    have hpos : 0 < Nat.sqrt n := by
      rcases Nat.eq_zero_or_pos (Nat.sqrt n) with h0 | h1
      · rw [h0] at hsq; omega
      · exact h1
    calc (Nat.sqrt n - 1) * (Nat.sqrt n - 1)
        < Nat.sqrt n * Nat.sqrt n := by
          apply Nat.mul_lt_mul_of_lt_of_le (by omega) (by omega)
          omega
      _ = n := hsq
  · rw [if_neg (by simpa using hsq)]
    simpa using lt_of_le_of_ne hs hsq

theorem natSqrt_eq_of (m k : Nat) (h1 : k * k ≤ m) (h2 : m < (k + 1) * (k + 1)) :
    Nat.sqrt m = k := by
  have ha : k ≤ Nat.sqrt m := Nat.le_sqrt.mpr h1
  have hb : Nat.sqrt m < k + 1 := by
    by_contra hh
    push_neg at hh
    have hs := Nat.sqrt_le m
    have hm : (k + 1) * (k + 1) ≤ Nat.sqrt m * Nat.sqrt m := Nat.mul_le_mul hh hh
    omega
  omega

theorem gridCols_one : gridCols 1 = 1 := by
  have h : Nat.sqrt 1 = 1 := natSqrt_eq_of 1 1 (by norm_num) (by norm_num)
  simp [gridCols, ceilSqrtNat, h]

theorem gridCols_four : gridCols 4 = 2 := by
  have h : Nat.sqrt 4 = 2 := natSqrt_eq_of 4 2 (by norm_num) (by norm_num)
  simp [gridCols, ceilSqrtNat, h]

theorem gridCols_five : gridCols 5 = 3 := by
  have h : Nat.sqrt 5 = 2 := natSqrt_eq_of 5 2 (by norm_num) (by norm_num)
  simp [gridCols, ceilSqrtNat, h]

theorem gridRows_one : gridRows 1 = 1 := by
  simp [gridRows, gridCols_one]

theorem gridRows_four : gridRows 4 = 2 := by
  simp [gridRows, gridCols_four]

theorem gridRows_five : gridRows 5 = 2 := by
  simp [gridRows, gridCols_five]

theorem gridCols_pos (n : Nat) (hn : 1 ≤ n) : 0 < gridCols n := by
  have h2 := gridCols_sq_ge n
  rcases Nat.eq_zero_or_pos (gridCols n) with h0 | h1
  · rw [h0] at h2
    simp at h2
    omega
  · exact h1

theorem gridRows_mul_ge (n : Nat) (hn : 1 ≤ n) : n ≤ gridRows n * gridCols n := by
  have hc := gridCols_pos n hn
  simp only [gridRows]
  generalize hcc : gridCols n = c at hc ⊢
  have hdm := Nat.div_add_mod (n + (c - 1)) c
  have hmod : (n + (c - 1)) % c < c := Nat.mod_lt _ hc
  rw [Nat.mul_comm]
  generalize hm : c * ((n + (c - 1)) / c) = m at hdm ⊢
  omega

theorem gridRows_pred_mul_lt (n : Nat) (hn : 1 ≤ n) :
    (gridRows n - 1) * gridCols n < n := by
  have hc := gridCols_pos n hn
  simp only [gridRows]
  generalize hcc : gridCols n = c at hc ⊢
  have hdm := Nat.div_add_mod (n + (c - 1)) c
  have hmod : (n + (c - 1)) % c < c := Nat.mod_lt _ hc
  rw [Nat.sub_mul, Nat.one_mul, Nat.mul_comm]
  generalize hm : c * ((n + (c - 1)) / c) = m at hdm ⊢
  omega

/-- C8: the combined export sheet is a grid with columns = ceil(sqrt N)
(characterized by cols^2 >= N > (cols-1)^2) and rows = ceil(N/columns)
(characterized by rows*cols >= N > (rows-1)*cols), the canvas measures
cols*cell + (cols+1)*gap by rows*cell + (rows+1)*gap, image i goes to
column i % cols and row i / cols, and in particular N=1 gives 1x1, N=4
gives 2x2 and N=5 gives 3x2. -/
theorem aldo_C8 (n cellSize gap i : Nat) (hn : 1 ≤ n) (hi : i < n) :
    n ≤ gridCols n * gridCols n ∧ (gridCols n - 1) * (gridCols n - 1) < n ∧
    n ≤ gridRows n * gridCols n ∧ (gridRows n - 1) * gridCols n < n ∧
    canvasWidth n cellSize gap = gridCols n * cellSize + (gridCols n + 1) * gap ∧
    canvasHeight n cellSize gap = gridRows n * cellSize + (gridRows n + 1) * gap ∧
    tileCol i n = i % gridCols n ∧ tileRow i n = i / gridCols n ∧
    gridCols 1 = 1 ∧ gridRows 1 = 1 ∧ gridCols 4 = 2 ∧ gridRows 4 = 2 ∧
    gridCols 5 = 3 ∧ gridRows 5 = 2 :=
  ⟨gridCols_sq_ge n, gridCols_pred_sq_lt n hn, gridRows_mul_ge n hn,
   gridRows_pred_mul_lt n hn, rfl, rfl, rfl, rfl,
   gridCols_one, gridRows_one, gridCols_four, gridRows_four, gridCols_five, gridRows_five⟩

/-- Witness for C8 at five 512-pixel cells with a 28-pixel gap. -/
theorem aldo_C8_witness :
    (5 : Nat) ≤ gridCols 5 * gridCols 5 ∧ (gridCols 5 - 1) * (gridCols 5 - 1) < 5 ∧
    (5 : Nat) ≤ gridRows 5 * gridCols 5 ∧ (gridRows 5 - 1) * gridCols 5 < 5 ∧
    canvasWidth 5 512 28 = gridCols 5 * 512 + (gridCols 5 + 1) * 28 ∧
    canvasHeight 5 512 28 = gridRows 5 * 512 + (gridRows 5 + 1) * 28 ∧
    tileCol 4 5 = 4 % gridCols 5 ∧ tileRow 4 5 = 4 / gridCols 5 ∧
    gridCols 1 = 1 ∧ gridRows 1 = 1 ∧ gridCols 4 = 2 ∧ gridRows 4 = 2 ∧
    gridCols 5 = 3 ∧ gridRows 5 = 2 :=
  aldo_C8 5 512 28 4 (by decide) (by decide)

theorem batchesOf_cons (x : String) (xs : List String) :
    batchesOf (x :: xs) = ((x :: xs).take 10) :: batchesOf ((x :: xs).drop 10) := by
  rw [batchesOf]

theorem batchesOf_length (ids : List String) :
    (batchesOf ids).length = (ids.length + 9) / 10 := by
  induction ids using batchesOf.induct with
  | case1 => simp [batchesOf]
  | case2 x xs ih =>
    rw [batchesOf_cons]
    simp only [List.length_cons, List.length_drop] at ih ⊢
    omega

theorem batchesOf_flatten (ids : List String) :
    (batchesOf ids).flatten = ids := by
  induction ids using batchesOf.induct with
  | case1 => simp [batchesOf]
  | case2 x xs ih =>
    rw [batchesOf_cons]
    simp only [List.flatten_cons, ih]
    exact List.take_append_drop 10 (x :: xs)

theorem batchesOf_size (ids : List String) (batch : List String)
    (hb : batch ∈ batchesOf ids) : batch.length ≤ 10 := by
  induction ids using batchesOf.induct with
  | case1 => simp [batchesOf] at hb
  | case2 x xs ih =>
    rw [batchesOf_cons] at hb
    rcases List.mem_cons.mp hb with h | h
    · rw [h, List.length_take]
      exact min_le_left _ _
    · exact ih h

/-- C5: getAppDetails slices the identifier list into exactly
ceil(N/10) contiguous batches of at most 10 whose concatenation is the
input, issues one lookup per batch, and flattens the per-batch result
lists in batch order, so the result count is the sum of the per-batch
counts. -/
theorem aldo_C5 (fetchResults : List String → Option (List StoreRec))
    (ids batch : List String) (hb : batch ∈ batchesOf ids) :
    (batchesOf ids).length = (ids.length + 9) / 10 ∧
    (batchesOf ids).flatten = ids ∧
    batch.length ≤ 10 ∧
    getAppDetails fetchResults ids =
      ((batchesOf ids).map (fun b => (fetchResults b).getD [])).flatten ∧
    (getAppDetails fetchResults ids).length =
      ((batchesOf ids).map (fun b => ((fetchResults b).getD []).length)).sum := by
  refine ⟨batchesOf_length ids, batchesOf_flatten ids, batchesOf_size ids batch hb, rfl, ?_⟩
  simp only [getAppDetails, List.length_flatten, List.map_map]
  rfl

/-- Witness for C5 on twelve identifiers (two batches) with an echoing
lookup. -/
theorem aldo_C5_witness :
    (batchesOf ["1", "2", "3", "4", "5", "6", "7", "8", "9", "10", "11", "12"]).length =
      ((["1", "2", "3", "4", "5", "6", "7", "8", "9", "10", "11", "12"] : List String).length + 9) / 10 ∧
    (batchesOf ["1", "2", "3", "4", "5", "6", "7", "8", "9", "10", "11", "12"]).flatten =
      ["1", "2", "3", "4", "5", "6", "7", "8", "9", "10", "11", "12"] ∧
    (["11", "12"] : List String).length ≤ 10 ∧
    getAppDetails (fun b => some (b.map (fun i => ⟨0, i, ""⟩)))
        ["1", "2", "3", "4", "5", "6", "7", "8", "9", "10", "11", "12"] =
      ((batchesOf ["1", "2", "3", "4", "5", "6", "7", "8", "9", "10", "11", "12"]).map
        (fun b => ((fun (b2 : List String) => some (b2.map (fun i => (⟨0, i, ""⟩ : StoreRec)))) b).getD [])).flatten ∧
    (getAppDetails (fun b => some (b.map (fun i => ⟨0, i, ""⟩)))
        ["1", "2", "3", "4", "5", "6", "7", "8", "9", "10", "11", "12"]).length =
      ((batchesOf ["1", "2", "3", "4", "5", "6", "7", "8", "9", "10", "11", "12"]).map
        (fun b => (((fun (b2 : List String) => some (b2.map (fun i => (⟨0, i, ""⟩ : StoreRec)))) b).getD []).length)).sum :=
  aldo_C5 (fun b => some (b.map (fun i => ⟨0, i, ""⟩)))
    ["1", "2", "3", "4", "5", "6", "7", "8", "9", "10", "11", "12"] ["11", "12"]
    (by simp [batchesOf])

/-- C1 counterexample: the row with id cell 0, name "A" and app_store_id
"123" produces a record that IS present in the loaded catalog although its
id is 0, not positive — the claimed id > 0 condition is not checked by the
code, which only requires Number.isFinite. -/
theorem aldo_C1_counterexample :
    c1CexApp ∈ loadAppsFromSheet c1CexCols c1CexRows ∧
    c1CexApp.id = some 0 ∧ ¬(0 : ℤ) < 0 := by
  refine ⟨by decide, by decide, by decide⟩

/-- C1 (amended): a row's record is present in the loaded catalog iff its
id is finite (Number.isFinite: any integer, zero and negative included),
its name is non-empty and its app_store_id is non-empty; rows failing this
are silently dropped. -/
theorem aldo_C1 (cols0 : List (Option (Option String)))
    (rows0 : List (Option (List (Option GVal)))) (row : List (Option GVal))
    (hrow : row ∈ rows0.reduceOption) :
    rowToApp cols0.reduceOption row ∈ loadAppsFromSheet cols0 rows0 ↔
      ((rowToApp cols0.reduceOption row).id.isSome = true ∧
        (rowToApp cols0.reduceOption row).name ≠ "" ∧
        (rowToApp cols0.reduceOption row).app_store_id ≠ "") := by
  unfold loadAppsFromSheet
  rw [List.mem_filter]
  constructor
  · intro h
    have hv := h.2
    simp only [validB, Bool.and_eq_true, bne_iff_ne, ne_eq, Bool.not_eq_true',
      beq_eq_false_iff_ne] at hv
    exact ⟨hv.1.1, hv.1.2, hv.2⟩
  · intro h
    refine ⟨List.mem_map_of_mem _ hrow, ?_⟩
    simp only [validB, Bool.and_eq_true, Bool.not_eq_true', beq_eq_false_iff_ne]
    exact ⟨⟨h.1, h.2.1⟩, h.2.2⟩

/-- Witness for C1 on the concrete payload: the produced record is valid,
so it is a member of the loaded catalog. -/
theorem aldo_C1_witness :
    c1CexApp ∈ loadAppsFromSheet c1CexCols c1CexRows :=
  (aldo_C1 c1CexCols c1CexRows
      [some (.num 0), some (.str "A"), some (.str "123")] (by decide)).mpr
    (by refine ⟨by decide, by decide, by decide⟩)

/-- C2 counterexample: with the categories ['app', 'game'] that searchApps
passes, a catalog record with a matching name but no category is dropped
by the search, although the claim says the category is ignored. -/
theorem aldo_C2_counterexample :
    strIncludes (jsToLower "Foo") (jsToLower (jsTrim "foo")) = true ∧
    searchAppsByCategory strLeB c2CexApps "foo" ["app", "game"] = [] := by
  constructor
  · decide
  · simp only [searchAppsByCategory]
    rw [if_neg (by decide)]
    have h2 : ((c2CexApps.filter
        (fun a => strIncludes (jsToLower a.name) (jsToLower (jsTrim "foo")))).filter
        (categoryOkB ["app", "game"])) = [] := by decide
    rw [h2, List.mergeSort_nil]

/-- C2 (amended): for every catalog, term and category list, a record is
kept by the search step iff its lowercased name contains the trimmed
lowercased term AND ('all' is among the requested categories, or the
record's category is present and among them).  The searchApps call passes
['app', 'game'], so records with a missing or other category are dropped
even when the name matches. -/
theorem aldo_C2 (cmp : String → String → Bool) (apps : List AppData)
    (searchTerm : String) (categories : List String) (a : AppData) :
    a ∈ searchAppsByCategory cmp apps searchTerm categories ↔
      (a ∈ apps ∧ strIncludes (jsToLower a.name) (jsToLower (jsTrim searchTerm)) = true ∧
        (categories.contains "all" = true ∨ categoryOkB categories a = true)) := by
  simp only [searchAppsByCategory]
  rw [List.mem_mergeSort]
  by_cases hall : categories.contains "all" = true
  · rw [if_pos hall, List.mem_filter]
    constructor
    · rintro ⟨h1, h2⟩
      exact ⟨h1, h2, Or.inl hall⟩
    · rintro ⟨h1, h2, _⟩
      exact ⟨h1, h2⟩
  · rw [if_neg hall, List.mem_filter, List.mem_filter]
    constructor
    · rintro ⟨⟨h1, h2⟩, h3⟩
      exact ⟨h1, h2, Or.inr h3⟩
    · rintro ⟨h1, h2, h3 | h3⟩
      · exact absurd h3 hall
      · exact ⟨⟨h1, h2⟩, h3⟩

/-- C7: the displayed trackName equals the name of a catalog record
matching on app_store_id = String(trackId) whenever such a record exists
(the first match supplies it), equals the store trackName otherwise, and
the choice of matching record depends only on the join key. -/
theorem aldo_C7 (catalogApps : List AppData) (app : StoreRec) :
    ((∃ d ∈ catalogApps, d.app_store_id = toString app.trackId) →
      ∃ d ∈ catalogApps, d.app_store_id = toString app.trackId ∧
        joinTrackName catalogApps app = d.name) ∧
    ((∀ d ∈ catalogApps, d.app_store_id ≠ toString app.trackId) →
      joinTrackName catalogApps app = app.trackName) ∧
    (∀ app2 : StoreRec, app2.trackId = app.trackId →
      catalogApps.find? (fun dbApp => dbApp.app_store_id == toString app2.trackId) =
        catalogApps.find? (fun dbApp => dbApp.app_store_id == toString app.trackId)) := by
  refine ⟨?_, ?_, ?_⟩
  · intro hex
    cases hfind : catalogApps.find? (fun dbApp => dbApp.app_store_id == toString app.trackId) with
    | none =>
      rcases hex with ⟨d, hd, he⟩
      have := List.find?_eq_none.mp hfind d hd
      simp [he] at this
    | some d =>
      refine ⟨d, List.mem_of_find?_eq_some hfind, ?_, ?_⟩
      · have := List.find?_some hfind
        simpa using this
      · simp [joinTrackName, hfind]
  · intro hall
    have hfind : catalogApps.find? (fun dbApp => dbApp.app_store_id == toString app.trackId)
        = none := by
      apply List.find?_eq_none.mpr
      intro d hd
      simpa using hall d hd
    simp [joinTrackName, hfind]
  · intro app2 hid
    rw [hid]

/-- Witness for C7 on a one-record catalog: trackId 111 matches and takes
the catalog name, trackId 222 does not and keeps the store name. -/
theorem aldo_C7_witness :
    joinTrackName c7Catalog ⟨111, "StoreName", "u"⟩ = "Zeta" ∧
    joinTrackName c7Catalog ⟨222, "StoreName", "u"⟩ = "StoreName" := by
  constructor
  · have t1 := (aldo_C7 c7Catalog ⟨111, "StoreName", "u"⟩).1
      ⟨⟨some 1, "Zeta", "111", some "app", none, none⟩, by decide, by decide⟩
    rcases t1 with ⟨d, hd, _, hj⟩
    have hd1 : d = ⟨some 1, "Zeta", "111", some "app", none, none⟩ := by
      simpa [c7Catalog] using hd
    rw [hj, hd1]
  · exact (aldo_C7 c7Catalog ⟨222, "StoreName", "u"⟩).2.1 (by decide)

theorem firstMinBy_mem_aux (l : List (String × ℚ)) :
    ∀ (acc : Option (String × ℚ)) (p : String × ℚ),
      l.foldl
          (fun acc p =>
            match acc with
            | none => some p
            | some q => if p.2 < q.2 then some p else acc)
          acc = some p →
        acc = some p ∨ p ∈ l := by
  induction l with
  | nil => intro acc p h; exact Or.inl h
  | cons a t ih =>
    intro acc p h
    rcases ih _ p h with hs | hm
    · cases acc with
      | none =>
        simp only at hs
        exact Or.inr (by rw [← Option.some_inj.mp hs]; exact List.mem_cons_self a t)
      | some q =>
        simp only at hs
        by_cases hlt : a.2 < q.2
        · rw [if_pos hlt] at hs
          exact Or.inr (by rw [← Option.some_inj.mp hs]; exact List.mem_cons_self a t)
        · rw [if_neg hlt] at hs
          exact Or.inl hs
    · exact Or.inr (List.mem_cons_of_mem a hm)

theorem firstMinBy_mem {l : List (String × ℚ)} {p : String × ℚ}
    (h : firstMinBy l = some p) : p ∈ l := by
  rcases firstMinBy_mem_aux l none p h with hs | hm
  · exact absurd hs (by simp)
  · exact hm

theorem getClosestColorId_mem (c : String) :
    getClosestColorId c ∈
      ["red", "orange", "yellow", "green", "blue", "purple", "pink", "black", "white"] := by
  unfold getClosestColorId
  cases hp : hexToHsl c with
  | none => simp
  | some hsl =>
    obtain ⟨h, s, l⟩ := hsl
    dsimp only
    by_cases hs : s < 12/100
    · rw [if_pos hs]
      by_cases hl : 8/10 < l
      · rw [if_pos hl]; simp
      · rw [if_neg hl]; simp
    · rw [if_neg hs]
      cases hm : firstMinBy (paletteWithHues.map (fun p => (p.1, hueDistance h p.2))) with
      | none => simp
      | some cc =>
        have hmem := firstMinBy_mem hm
        have hfst : cc.1 ∈ paletteWithHues.map Prod.fst := by
          rcases List.mem_map.mp hmem with ⟨p, hp2, he⟩
          exact List.mem_map.mpr ⟨p, hp2, by rw [← he]⟩
        have hids : paletteWithHues.map Prod.fst =
            ["red", "orange", "yellow", "green", "blue", "purple", "pink"] := by decide
        rw [hids] at hfst
        have hok : ∀ x ∈ (["red", "orange", "yellow", "green", "blue", "purple", "pink"] :
            List String),
            ((if x = "" then "black" else x) ∈
              (["red", "orange", "yellow", "green", "blue", "purple", "pink", "black",
                "white"] : List String)) := by decide
        have := hok cc.1 hfst
        simp only [List.mem_cons] at this ⊢
        tauto

/-- C3: the color classifier is total with values in the fixed palette and
never the 'all' sentinel; an unparseable hex string yields black; and a
parseable color with saturation below 0.12 yields white exactly when
lightness exceeds 0.8 and black otherwise, never a hue bucket. -/
theorem aldo_C3 (c : String) (h s l : ℚ) :
    getClosestColorId c ∈
      ["red", "orange", "yellow", "green", "blue", "purple", "pink", "black", "white"] ∧
    getClosestColorId c ≠ "all" ∧
    (hexToHsl c = none → getClosestColorId c = "black") ∧
    (hexToHsl c = some (h, s, l) → s < 12/100 →
      getClosestColorId c = if 8/10 < l then "white" else "black") := by
  refine ⟨getClosestColorId_mem c, ?_, ?_, ?_⟩
  · have hmem := getClosestColorId_mem c
    have : ∀ x ∈ (["red", "orange", "yellow", "green", "blue", "purple", "pink", "black",
        "white"] : List String), x ≠ "all" := by decide
    exact this _ hmem
  · intro hnone
    unfold getClosestColorId
    rw [hnone]
  · intro hsome hs
    unfold getClosestColorId
    rw [hsome]
    dsimp only
    rw [if_pos hs]

theorem hexToHsl_gray13 : hexToHsl "#0d0d0d" = some (0, 0, 13/255) := by
  have hp : parseHex6 "#0d0d0d" = some (13, 13, 13) := by decide
  rw [hexToHsl, hp]
  norm_num

theorem hexToHsl_gray254 : hexToHsl "#fefefe" = some (0, 0, 254/255) := by
  have hp : parseHex6 "#fefefe" = some (254, 254, 254) := by decide
  rw [hexToHsl, hp]
  norm_num

/-- Witness for C3: an unparseable string, a dark near-neutral and a light
near-neutral. -/
theorem aldo_C3_witness :
    getClosestColorId "zz" = "black" ∧
    getClosestColorId "#0d0d0d" = "black" ∧
    getClosestColorId "#fefefe" = "white" ∧
    getClosestColorId "#0d0d0d" ∈
      ["red", "orange", "yellow", "green", "blue", "purple", "pink", "black", "white"] := by
  have t1 := (aldo_C3 "zz" 0 0 0).2.2.1 (by decide)
  have t2 := (aldo_C3 "#0d0d0d" 0 0 (13/255)).2.2.2 hexToHsl_gray13 (by norm_num)
  have t3 := (aldo_C3 "#fefefe" 0 0 (254/255)).2.2.2 hexToHsl_gray254 (by norm_num)
  refine ⟨t1, ?_, ?_, (aldo_C3 "#0d0d0d" 0 0 0).1⟩
  · rw [t2]
    rw [if_neg (by norm_num)]
  · rw [t3]
    rw [if_pos (by norm_num)]

theorem cntL_cons (c k : String) (l : List String) :
    cntL (c :: l) k = (if c == k then 1 else 0) + cntL l k := by
  simp only [cntL, List.filter_cons]
  by_cases h : (c == k) = true
  · rw [if_pos h, if_pos h, List.length_cons]
    omega
  · rw [if_neg h, if_neg h]
    omega

theorem cntL_cons_self (c : String) (l : List String) :
    cntL (c :: l) c = 1 + cntL l c := by
  rw [cntL_cons, if_pos (by simp)]

theorem cntL_cons_ne (c k : String) (l : List String) (h : c ≠ k) :
    cntL (c :: l) k = cntL l k := by
  rw [cntL_cons, if_neg (by simpa using h)]
  omega

theorem bump_mem_keys (hst : List (String × Nat)) (c : String)
    (hc : c ∈ hst.map Prod.fst) (hnd : (hst.map Prod.fst).Nodup) :
    bump hst c = hst.map (fun kv => (kv.1, if kv.1 = c then kv.2 + 1 else kv.2)) := by
  induction hst with
  | nil => simp at hc
  | cons kv t ih =>
    obtain ⟨k, v⟩ := kv
    simp only [List.map_cons, List.nodup_cons] at hnd
    by_cases hk : k = c
    · rw [bump, if_pos (by simpa using hk)]
      simp only [List.map_cons, if_pos hk]
      congr 1
      have : ∀ e ∈ t, (fun kv => (kv.1, if kv.1 = c then kv.2 + 1 else kv.2)) e = e := by
        intro e he
        have : e.1 ≠ c := by
          intro hec
          exact hnd.1 (hk ▸ hec ▸ List.mem_map_of_mem Prod.fst he)
        simp [this]
      rw [List.map_congr_left this]
      simp
    · rw [bump, if_neg (by simpa using hk)]
      simp only [List.map_cons, if_neg hk]
      congr 1
      have hct : c ∈ t.map Prod.fst := by
        simp only [List.map_cons, List.mem_cons] at hc
        rcases hc with h | h
        · exact absurd h.symm hk
        · exact h
      exact ih hct hnd.2

theorem bump_not_mem (hst : List (String × Nat)) (c : String)
    (hc : c ∉ hst.map Prod.fst) : bump hst c = hst ++ [(c, 1)] := by
  induction hst with
  | nil => rfl
  | cons kv t ih =>
    obtain ⟨k, v⟩ := kv
    simp only [List.map_cons, List.mem_cons] at hc
    push_neg at hc
    rw [bump, if_neg (by simpa using (Ne.symm hc.1))]
    rw [List.cons_append]
    congr 1
    exact ih hc.2

theorem bump_keys (hst : List (String × Nat)) (c : String)
    (hnd : (hst.map Prod.fst).Nodup) :
    (bump hst c).map Prod.fst =
      if c ∈ hst.map Prod.fst then hst.map Prod.fst else hst.map Prod.fst ++ [c] := by
  by_cases hc : c ∈ hst.map Prod.fst
  · rw [if_pos hc, bump_mem_keys hst c hc hnd, List.map_map]
    rfl
  · rw [if_neg hc, bump_not_mem hst c hc, List.map_append]
    rfl

theorem bump_keys_nodup (hst : List (String × Nat)) (c : String)
    (hnd : (hst.map Prod.fst).Nodup) : ((bump hst c).map Prod.fst).Nodup := by
  rw [bump_keys hst c hnd]
  by_cases hc : c ∈ hst.map Prod.fst
  · rwa [if_pos hc]
  · rw [if_neg hc]
    simp [List.nodup_append, hnd, hc]

theorem firstDedup_nil : firstDedup [] = [] := by
  rw [firstDedup]

theorem firstDedup_cons (c : String) (t : List String) :
    firstDedup (c :: t) = c :: firstDedup (t.filter (fun d => !(d == c))) := by
  rw [firstDedup]

theorem mem_of_mem_firstDedup (l : List String) (x : String) (h : x ∈ firstDedup l) :
    x ∈ l := by
  induction l using firstDedup.induct with
  | case1 => rw [firstDedup_nil] at h; simp at h
  | case2 c t ih =>
    rw [firstDedup_cons] at h
    rcases List.mem_cons.mp h with h1 | h2
    · exact h1 ▸ List.mem_cons_self c t
    · exact List.mem_cons_of_mem c (List.mem_of_mem_filter (ih h2))


theorem histFold_eq (l : List String) :
    ∀ hst : List (String × Nat), (hst.map Prod.fst).Nodup →
      l.foldl bump hst =
        hst.map (fun kv => (kv.1, kv.2 + cntL l kv.1)) ++
          (firstDedup (l.filter (fun c => decide (c ∉ hst.map Prod.fst)))).map
            (fun c => (c, cntL l c)) := by
  induction l with
  | nil =>
    intro hst hnd
    simp only [List.foldl_nil, List.filter_nil, firstDedup_nil, List.map_nil,
      List.append_nil]
    have h0 : ∀ kv ∈ hst, (fun kv => (kv.1, kv.2 + cntL ([] : List String) kv.1)) kv = kv := by
      intro kv _
      simp [cntL]
    rw [List.map_congr_left h0]
    simp
  | cons c l ih =>
    intro hst hnd
    rw [List.foldl_cons, ih (bump hst c) (bump_keys_nodup hst c hnd)]
    by_cases hc : c ∈ hst.map Prod.fst
    · -- the key is already present: its entry is bumped in place
      have hkeys : (bump hst c).map Prod.fst = hst.map Prod.fst := by
        rw [bump_keys hst c hnd, if_pos hc]
      rw [hkeys, bump_mem_keys hst c hc hnd, List.map_map]
      congr 1
      · apply List.map_congr_left
        intro kv hkv
        simp only [Function.comp_apply]
        by_cases hkc : kv.1 = c
        · rw [if_pos hkc, hkc, cntL_cons_self, Nat.add_assoc]
        · rw [if_neg hkc, cntL_cons_ne c kv.1 l (fun he => hkc he.symm)]
      · have hfilter : (c :: l).filter (fun d => decide (d ∉ hst.map Prod.fst)) =
            l.filter (fun d => decide (d ∉ hst.map Prod.fst)) := by
          rw [List.filter_cons, if_neg (by simpa using hc)]
        rw [hfilter]
        apply List.map_congr_left
        intro d hd
        have hdf := mem_of_mem_firstDedup _ _ hd
        have hdk : d ∉ hst.map Prod.fst := by
          have := (List.mem_filter.mp hdf).2
          simpa using this
        have hdc : c ≠ d := fun he => hdk (he ▸ hc)
        rw [cntL_cons_ne c d l hdc]
    · -- a new key is appended with count 1
      have hkeys : (bump hst c).map Prod.fst = hst.map Prod.fst ++ [c] := by
        rw [bump_keys hst c hnd, if_neg hc]
      rw [hkeys, bump_not_mem hst c hc, List.map_append]
      have hfilter : (c :: l).filter (fun d => decide (d ∉ hst.map Prod.fst)) =
          c :: l.filter (fun d => decide (d ∉ hst.map Prod.fst)) := by
        rw [List.filter_cons, if_pos (by simpa using hc)]
      rw [hfilter, firstDedup_cons]
      have hff : (l.filter (fun d => decide (d ∉ hst.map Prod.fst))).filter
            (fun d => !(d == c)) =
          l.filter (fun d => decide (d ∉ (hst.map Prod.fst ++ [c]))) := by
        rw [List.filter_filter]
        apply List.filter_congr
        intro d _
        by_cases h1 : d ∈ hst.map Prod.fst
        · simp [h1]
        · by_cases h2 : d = c
          · simp [h1, h2]
          · simp [h1, h2]
      rw [hff]
      simp only [List.map_cons, List.map_nil, List.append_assoc, List.singleton_append]
      congr 1
      · apply List.map_congr_left
        intro kv hkv
        have hck : c ≠ kv.1 := fun he => hc (he ▸ List.mem_map_of_mem Prod.fst hkv)
        rw [cntL_cons_ne c kv.1 l hck]
      · congr 1
        · rw [cntL_cons_self]
        · apply List.map_congr_left
          intro d hd
          have hdf := mem_of_mem_firstDedup _ _ hd
          have hdc : c ≠ d := by
            have := (List.mem_filter.mp hdf).2
            intro he
            simp [← he] at this
          rw [cntL_cons_ne c d l hdc]

theorem countColor_eq_cntL (px : List Pixel) (c : String) :
    cntL (px.map pixelHex) c = countColor px c := by
  simp only [cntL, countColor, List.filter_map, List.length_map]
  rfl

theorem buildHist_eq (px : List Pixel) :
    buildHist px = (firstSeenColors px).map (fun c => (c, countColor px c)) := by
  have hfold : buildHist px = (px.map pixelHex).foldl bump [] := by
    rw [buildHist, List.foldl_map]
  rw [hfold, histFold_eq (px.map pixelHex) [] (by simp)]
  simp only [List.map_nil, List.nil_append]
  have hfil : (px.map pixelHex).filter (fun c => decide (c ∉ ([] : List String))) =
      px.map pixelHex := by
    apply List.filter_eq_self.mpr
    intro a _
    simp
  rw [hfil, firstSeenColors]
  apply List.map_congr_left
  intro c _
  rw [countColor_eq_cntL]

theorem foldrMax_le (f : String → Nat) (cs : List String) :
    ∀ c ∈ cs, f c ≤ (cs.map f).foldr max 0 := by
  induction cs with
  | nil => intro c hc; simp at hc
  | cons a t ih =>
    intro c hc
    rw [List.map_cons, List.foldr_cons]
    rcases List.mem_cons.mp hc with h | h
    · rw [h]; exact le_max_left _ _
    · exact le_trans (ih c h) (le_max_right _ _)

theorem foldrMax_attained (f : String → Nat) (cs : List String) (h : cs ≠ []) :
    ∃ c ∈ cs, f c = (cs.map f).foldr max 0 := by
  induction cs with
  | nil => exact absurd rfl h
  | cons a t ih =>
    rw [List.map_cons, List.foldr_cons]
    by_cases ht : t = []
    · subst ht
      exact ⟨a, List.mem_cons_self a [], by simp⟩
    · obtain ⟨d, hd, hde⟩ := ih ht
      rcases le_total ((t.map f).foldr max 0) (f a) with hle | hle
      · exact ⟨a, List.mem_cons_self a t, (max_eq_left hle).symm⟩
      · exact ⟨d, List.mem_cons_of_mem a hd, by rw [max_eq_right hle]; exact hde⟩

theorem find?Congr {α : Type} {p q : α → Bool} (l : List α) (h : ∀ x ∈ l, p x = q x) :
    l.find? p = l.find? q := by
  induction l with
  | nil => rfl
  | cons a t ih =>
    have ha := h a (List.mem_cons_self a t)
    cases hp : p a with
    | true =>
      rw [List.find?_cons_of_pos _ hp, List.find?_cons_of_pos _ (ha ▸ hp)]
    | false =>
      rw [List.find?_cons_of_neg _ (by simp [hp]), List.find?_cons_of_neg _ (by simp [← ha, hp])]
      exact ih (fun x hx => h x (List.mem_cons_of_mem a hx))

theorem selectFold_eq (f : String → Nat) (cs : List String) :
    ∀ (a : String) (m : Nat),
      (cs.map (fun c => (c, f c))).foldl (fun acc e => if e.2 > acc.2 then e else acc) (a, m) =
        (match cs.find?
            (fun c => decide (m < f c) && decide ((cs.map f).foldr max 0 ≤ f c)) with
        | some c => (c, f c)
        | none => (a, m)) := by
  induction cs with
  | nil => intro a m; rfl
  | cons c t ih =>
    intro a m
    rw [List.map_cons, List.foldl_cons]
    simp only [gt_iff_lt]
    by_cases hcm : m < f c
    · rw [if_pos hcm, ih c (f c)]
      by_cases hM : (t.map f).foldr max 0 ≤ f c
      · -- the head already attains the overall maximum
        have hpredc : (decide (m < f c) &&
            decide (((c :: t).map f).foldr max 0 ≤ f c)) = true := by
          simp only [List.map_cons, List.foldr_cons]
          simp [hcm, hM]
        have hnone : t.find? (fun x => decide (f c < f x) &&
            decide ((t.map f).foldr max 0 ≤ f x)) = none := by
          apply List.find?_eq_none.mpr
          intro x hx
          have hle := foldrMax_le f t x hx
          simp only [Bool.and_eq_true, decide_eq_true_eq, not_and]
          intro h1
          omega
        rw [List.find?_cons]
        rw [hpredc, hnone]
      · -- the maximum lives strictly in the tail
        have hMc : f c < (t.map f).foldr max 0 := Nat.lt_of_not_le hM
        have hpredc : (decide (m < f c) &&
            decide (((c :: t).map f).foldr max 0 ≤ f c)) = false := by
          simp only [List.map_cons, List.foldr_cons]
          have h3 : ¬ max (f c) ((t.map f).foldr max 0) ≤ f c :=
            fun hh => hM (le_trans (le_max_right _ _) hh)
          simp [h3]
        have hcongr : t.find? (fun x => decide (f c < f x) &&
              decide ((t.map f).foldr max 0 ≤ f x)) =
            t.find? (fun x => decide (m < f x) &&
              decide (((c :: t).map f).foldr max 0 ≤ f x)) := by
          apply find?Congr
          intro x hx
          simp only [List.map_cons, List.foldr_cons]
          by_cases h2 : (t.map f).foldr max 0 ≤ f x
          · have h3 : f c < f x := lt_of_lt_of_le hMc h2
            have h4 : m < f x := lt_trans hcm h3
            have h5 : max (f c) ((t.map f).foldr max 0) ≤ f x := max_le (le_of_lt h3) h2
            simp [h2, h3, h4, h5]
          · have h3 : ¬ max (f c) ((t.map f).foldr max 0) ≤ f x :=
              fun hh => h2 (le_trans (le_max_right _ _) hh)
            simp [h2, h3]
        have ht : t ≠ [] := by
          intro h0
          rw [h0] at hMc
          simp at hMc
        obtain ⟨d, hd, hde⟩ := foldrMax_attained f t ht
        have hsome : (t.find? (fun x => decide (m < f x) &&
            decide (((c :: t).map f).foldr max 0 ≤ f x))).isSome = true := by
          rw [List.find?_isSome]
          refine ⟨d, hd, ?_⟩
          simp only [List.map_cons, List.foldr_cons, Bool.and_eq_true, decide_eq_true_eq]
          constructor
          · omega
          · have hmx : max (f c) ((t.map f).foldr max 0) = (t.map f).foldr max 0 :=
              max_eq_right (le_of_lt hMc)
            rw [hmx, ← hde]
        obtain ⟨d0, hd0⟩ := Option.isSome_iff_exists.mp hsome
        rw [List.find?_cons]
        rw [hpredc, hcongr, hd0]
    · rw [if_neg hcm, ih a m]
      have hpredc : (decide (m < f c) &&
          decide (((c :: t).map f).foldr max 0 ≤ f c)) = false := by
        simp [hcm]
      have hcongr : t.find? (fun x => decide (m < f x) &&
            decide ((t.map f).foldr max 0 ≤ f x)) =
          t.find? (fun x => decide (m < f x) &&
            decide (((c :: t).map f).foldr max 0 ≤ f x)) := by
        apply find?Congr
        intro x hx
        simp only [List.map_cons, List.foldr_cons]
        by_cases h1 : m < f x
        · have hcx : f c ≤ f x := le_trans (Nat.le_of_not_lt hcm) (le_of_lt h1)
          by_cases h2 : (t.map f).foldr max 0 ≤ f x
          · simp [h1, h2, max_le_iff, hcx]
          · have h3 : ¬ max (f c) ((t.map f).foldr max 0) ≤ f x :=
              fun hh => h2 (le_trans (le_max_right _ _) hh)
            simp [h1, h2, h3]
        · simp [h1]
      rw [List.find?_cons]
      rw [hpredc, hcongr]

theorem selectMax_map (cs : List String) (f : String → Nat) (hf : ∀ c ∈ cs, 1 ≤ f c) :
    selectMax (cs.map (fun c => (c, f c))) =
      ((cs.find? (fun c => f c == (cs.map f).foldr max 0)).getD "#666666") := by
  rw [selectMax, selectFold_eq f cs "#666666" 0]
  have hcong : cs.find? (fun c => decide (0 < f c) &&
        decide ((cs.map f).foldr max 0 ≤ f c)) =
      cs.find? (fun c => f c == (cs.map f).foldr max 0) := by
    apply find?Congr
    intro x hx
    have h1 : 0 < f x := hf x hx
    have h2 : f x ≤ (cs.map f).foldr max 0 := foldrMax_le f cs x hx
    by_cases h3 : (cs.map f).foldr max 0 ≤ f x
    · have h4 : f x = (cs.map f).foldr max 0 := Nat.le_antisymm h2 h3
      have h5 : (f x == (cs.map f).foldr max 0) = true := by simp [h4]
      have h6 : (decide (0 < f x) && decide ((cs.map f).foldr max 0 ≤ f x)) = true := by
        simp [h1, h3]
      rw [h5, h6]
    · have h4 : f x ≠ (cs.map f).foldr max 0 := fun he => h3 (he ▸ le_refl _)
      have h5 : (f x == (cs.map f).foldr max 0) = false := by simp [h4]
      have h6 : (decide (0 < f x) && decide ((cs.map f).foldr max 0 ≤ f x)) = false := by
        simp [h3]
      rw [h5, h6]
  rw [hcong]
  cases hfind : cs.find? (fun c => f c == (cs.map f).foldr max 0) with
  | none => rfl
  | some d => rfl

set_option maxRecDepth 4096 in
theorem hexByte_shape :
    ∀ n : Fin 256, ((hexByte n.val).data.length == 2 &&
      (hexByte n.val).data.all (fun ch => ch.isDigit || ('a' ≤ ch && ch ≤ 'f'))) = true := by
  decide

theorem pixelHex_isHex (p : Pixel) : isHexColor (pixelHex p) = true := by
  obtain ⟨r, g, b, a⟩ := p
  have hr := hexByte_shape r
  have hg := hexByte_shape g
  have hb := hexByte_shape b
  simp only [Bool.and_eq_true, beq_iff_eq, List.all_eq_true] at hr hg hb
  have hdata : (pixelHex ⟨r, g, b, a⟩).data =
      '#' :: ((hexByte r.val).data ++ (hexByte g.val).data ++ (hexByte b.val).data) := by
    simp only [pixelHex, String.join, List.map_cons, List.map_nil, List.foldl_cons,
      List.foldl_nil]
    rw [String.data_append, String.data_append, String.data_append, String.data_append]
    rfl
  rw [isHexColor, hdata]
  simp only [List.length_append, List.all_append, Bool.and_eq_true, List.all_eq_true,
    beq_iff_eq, hr.1, hg.1, hb.1]
  exact ⟨by trivial, ⟨hr.2, hg.2⟩, hb.2⟩

/-- C4: the dominant color equals the specification value — the first-seen
color of maximal exact-match frequency, with the neutral gray fallback on
an empty pixel buffer — and is always a '#rrggbb' string. -/
theorem aldo_C4 (px : List Pixel) :
    getDominantColor px = dominantColorSpec px ∧
    getDominantColor [] = "#666666" ∧
    isHexColor (getDominantColor px) = true := by
  have hmain : ∀ q : List Pixel, getDominantColor q = dominantColorSpec q := by
    intro q
    have hf : ∀ c ∈ firstSeenColors q, 1 ≤ countColor q c := by
      intro c hc
      have hc2 : c ∈ q.map pixelHex := mem_of_mem_firstDedup _ c hc
      obtain ⟨p, hp, he⟩ := List.mem_map.mp hc2
      have hpmem : p ∈ q.filter (fun p2 => pixelHex p2 == c) :=
        List.mem_filter.mpr ⟨hp, by simp [he]⟩
      have := List.length_pos.mpr (List.ne_nil_of_mem hpmem)
      simpa [countColor] using this
    rw [getDominantColor, buildHist_eq q, selectMax_map (firstSeenColors q) (countColor q) hf]
    rfl
  refine ⟨hmain px, rfl, ?_⟩
  rw [hmain px, dominantColorSpec]
  cases hfind : (firstSeenColors px).find? (fun c => countColor px c == maxFreq px) with
  | none => rfl
  | some c =>
    have hc : c ∈ firstSeenColors px := List.mem_of_find?_eq_some hfind
    have hc2 : c ∈ px.map pixelHex := mem_of_mem_firstDedup _ c hc
    obtain ⟨p, hp, he⟩ := List.mem_map.mp hc2
    rw [Option.getD_some, ← he]
    exact pixelHex_isHex p

/-- Witness for C6 on a concrete insertion sequence. -/
theorem aldo_C6_witness :
    (historyAfter ["alpha", "beta", "alpha"]).length ≤ 5 ∧
    (historyAfter ["alpha", "beta", "alpha"]).Nodup ∧
    (insertSearchTerm "beta" ["alpha", "beta", "gamma"]).head? = some "beta" ∧
    "beta" ∉ (insertSearchTerm "beta" ["alpha", "beta", "gamma"]).drop 1 ∧
    (insertSearchTerm "beta" ["alpha", "beta", "gamma"]).length ≤ 5 :=
  aldo_C6 ["alpha", "beta", "alpha"] "beta" ["alpha", "beta", "gamma"]
